import Mathlib

/-!
Verification of the TypeScript-AST visitor plugin
(`src/packages/presets/client/src/typescript-ast-visitor/index.ts`).

The development is a shallow embedding of the plugin's bottom-up fold over a
GraphQL schema document.  Strings are modelled as `List Char` (`Str` below);
every helper of the source file (`indent`, `getDeprecationReason`,
`getNodeComment`, `MaybeString`, `convertName`, `getTypeForNode`,
`clearOptional`, `_getDirectiveOverrideType`, `mergeInterfaces`,
`buildArgumentsBlock`, `getObjectTypeDeclarationBlock`) is translated from the
source.  Pieces of this repository that live outside `src/`
(`@graphql-codegen/visitor-plugin-common`: `DeclarationBlock`,
`transformComment`, `convertFactory`, `isOneOfInputObjectType`,
`buildScalarsFromConfig`) are modelled from the specification and carry a
`Modelled from the spec:` doc comment.

Two behaviours of the runtime matter throughout and are embedded explicitly:

* By the time a `leave` callback runs, the graphql-js visitor has already
  replaced every `Name` child with its plain string value (the source remarks
  on this twice: "Why the heck is node.name a string and not
  \x7b value: string \x7d at runtime ?!").  Folded nodes therefore carry
  `Str` names, and the JavaScript property access `v.name.value` on such a
  name is modelled by `jsStringValueProp`, which is always `none`
  (`undefined`).

* `str.replace(/Maybe<(.*?)>$/, p)` is modelled by `regexReplaceToEnd`:
  the leftmost position where the literal pattern matches and the rest of the
  string, which must end in `>` and contain no newline in the captured group
  (`.` does not match newlines), is replaced by the group.
-/

namespace GqlTs

/-- Strings of the embedding: JavaScript strings as lists of characters. -/
abbrev Str := List Char

/-- Join a list of strings with a separator, as JavaScript `Array.join`. -/
def joinStr (sep : Str) : List Str → Str
  | [] => []
  | [x] => x
  | x :: y :: xs => x ++ sep ++ joinStr sep (y :: xs)

/-- Decide whether `p` is an initial segment of `s`, as JavaScript
`s.startsWith(p)`. -/
def strStartsWith (s p : Str) : Bool :=
  match p, s with
  | [], _ => true
  | _ :: _, [] => false
  | pc :: ps, c :: cs => pc == c && strStartsWith cs ps

/-- Decide whether `pat` occurs as a contiguous substring of `s`, as
JavaScript `s.includes(pat)`. -/
def containsSubstr (pat : Str) : Str → Bool
  | [] => strStartsWith [] pat
  | c :: rest => strStartsWith (c :: rest) pat || containsSubstr pat rest

/-- Attempt of the anchored regex `pat(.*?)>$` at the current position: the
string must start with the literal `pat`, end with `>`, and the captured
group (everything between) may not contain a newline, since `.` does not
match newlines.  Returns the captured group on success. -/
def wrapMatchGroup (pat s : Str) : Option Str :=
  if strStartsWith s pat then
    let rest := s.drop pat.length
    if rest.getLast? == some '>' && rest.dropLast.all (fun c => c != '\n') then
      some rest.dropLast
    else none
  else none

/-- JavaScript `s.replace(re, grp)` for the non-global regex
`/pat(.*?)>$/`: scan left to right for the first position where the regex
matches (the match necessarily extends to the end of the string because of
the `$` anchor) and replace the matched span by the captured group;
if there is no match the string is returned unchanged. -/
def regexReplaceToEnd (pat : Str) : Str → Str
  | [] => []
  | c :: rest =>
    match wrapMatchGroup pat (c :: rest) with
    | some grp => grp
    | none => c :: regexReplaceToEnd pat rest

/-- Source `indent`: prefix `count` copies of two spaces. -/
def indent (str : Str) (count : Nat := 1) : Str :=
  (List.replicate count ("  ".toList)).flatten ++ str

/-- Node kinds of the GraphQL AST, as the string constants of `Kind` in
graphql-js. -/
inductive Kind where
  | document
  | objectTypeDefinition
  | interfaceTypeDefinition
  | unionTypeDefinition
  | inputObjectTypeDefinition
  | scalarTypeDefinition
  | enumTypeDefinition
  | directiveDefinition
  | schemaDefinition
  | fieldDefinition
  | inputValueDefinition
  | namedType
  | listType
  | nonNullType
deriving DecidableEq, BEq

/-- An entry of the visitor's `ancestors` argument: either a node (seen
through its kind) or an array of sibling nodes (seen through their kinds). -/
inductive AncestorEntry where
  | node (k : Kind)
  | array (ks : List Kind)
deriving DecidableEq, BEq

/-- Image of one ancestor under the source's
`'length' in t ? t.map(t => t.kind) : t.kind`: a kind for a node, a list of
kinds for an array. -/
inductive KindsEntry where
  | single (k : Kind)
  | multi (ks : List Kind)
deriving DecidableEq, BEq

/-- Source `getKindsFromAncestors`: map each ancestor to its kind (nodes) or
to the list of its elements' kinds (arrays).  The `filter(Boolean)` of the
source is the identity here since kinds are non-empty strings and arrays are
truthy. -/
def getKindsFromAncestors (ancestors : List AncestorEntry) : List KindsEntry :=
  ancestors.map (fun t =>
    match t with
    | .node k => KindsEntry.single k
    | .array ks => KindsEntry.multi ks)

/-- JavaScript `Array.includes` on the result of `getKindsFromAncestors`:
only a node entry can be `===` to a kind constant; an array entry never is. -/
def kindsInclude (entries : List KindsEntry) (k : Kind) : Bool :=
  entries.contains (KindsEntry.single k)

/-- Source `MaybeString`: wrap an already rendered type in the
context-sensitive nullability wrapper, `InputMaybe` when some ancestor node
is an input object type definition and `Maybe` otherwise. -/
def MaybeString (ancestors : List AncestorEntry) (children : Str) : Str :=
  let currentVisitContext := getKindsFromAncestors ancestors
  let isInputContext := kindsInclude currentVisitContext Kind.inputObjectTypeDefinition
  if isInputContext then "InputMaybe<".toList ++ children ++ ">".toList
  else "Maybe<".toList ++ children ++ ">".toList

/-- Source `NonNullType` leave: strip the nullability wrapper from the
already-rendered inner string by textual matching, first trying the `Maybe`
prefix, then the `InputMaybe` prefix. -/
def nonNullTypeLeave (t : Str) : Str :=
  if strStartsWith t ("Maybe".toList) then regexReplaceToEnd ("Maybe<".toList) t
  else if strStartsWith t ("InputMaybe".toList) then
    regexReplaceToEnd ("InputMaybe<".toList) t
  else t

/-- Source `clearOptional`: strip a leading `Maybe<...>` wrapper (only the
`Maybe` prefix is tested; `InputMaybe` is not). -/
def clearOptional (str : Str) : Str :=
  if strStartsWith str ("Maybe".toList) then regexReplaceToEnd ("Maybe<".toList) str
  else str

/-- Type reference syntax of the schema tree. -/
inductive TypeNode where
  | named (name : Str)
  | list (t : TypeNode)
  | nonNull (t : TypeNode)
deriving DecidableEq

/-- Test for `type.kind === Kind.NON_NULL_TYPE` on an original (pre-fold)
type node. -/
def isNonNullType : TypeNode → Bool
  | .nonNull _ => true
  | _ => false

/-- Value literal of a directive argument, with its syntactic kind. -/
inductive ValueNode where
  | stringValue (s : Str)
  | intValue (n : Int)
  | booleanValue (b : Bool)
  | enumValue (s : Str)
deriving DecidableEq

/-- The graphql-js `Kind` constant a value node carries in its `kind`
field. -/
def ValueNode.kindName : ValueNode → Str
  | .stringValue _ => "StringValue".toList
  | .intValue _ => "IntValue".toList
  | .booleanValue _ => "BooleanValue".toList
  | .enumValue _ => "EnumValue".toList

/-- A directive argument (never folded: the visitor has no `Argument`
leave, so its `value` keeps its node shape). -/
structure ArgumentNode where
  name : Str
  value : ValueNode
deriving DecidableEq

/-- A directive as the leave callbacks see it: the `Name` leave has already
replaced its name by the plain string. -/
structure DirectiveNode where
  name : Str
  arguments : List ArgumentNode := []
deriving DecidableEq

/-- An input value definition (input object field or field argument), with
the structural facts the fold reads from the original node. -/
structure InputValueDefinitionNode where
  name : Str
  type : TypeNode
  defaultValue : Bool := false
  directives : List DirectiveNode := []
  description : Option Str := none
deriving DecidableEq

/-- A field definition of an object or interface type. -/
structure FieldDefinitionNode where
  name : Str
  type : TypeNode
  arguments : List InputValueDefinitionNode := []
  directives : List DirectiveNode := []
  description : Option Str := none
deriving DecidableEq

/-- An object type definition (interfaces referenced by name). -/
structure ObjectTypeDefinitionNode where
  name : Str
  description : Option Str := none
  interfaces : List Str := []
  fields : List FieldDefinitionNode := []
deriving DecidableEq

/-- An interface type definition. -/
structure InterfaceTypeDefinitionNode where
  name : Str
  description : Option Str := none
  fields : List FieldDefinitionNode := []
deriving DecidableEq

/-- A union type definition (member types referenced by name). -/
structure UnionTypeDefinitionNode where
  name : Str
  description : Option Str := none
  types : List Str := []
deriving DecidableEq

/-- An input object type definition. -/
structure InputObjectTypeDefinitionNode where
  name : Str
  description : Option Str := none
  fields : List InputValueDefinitionNode := []
deriving DecidableEq

/-- One top-level definition of the schema document. -/
inductive Definition where
  | objectType (o : ObjectTypeDefinitionNode)
  | interfaceType (i : InterfaceTypeDefinitionNode)
  | unionType (u : UnionTypeDefinitionNode)
  | inputObjectType (io_ : InputObjectTypeDefinitionNode)
  | scalarType (name : Str)
  | directiveDefinition
  | schemaDefinition
deriving DecidableEq

/-- Kind of a top-level definition, for the ancestor bookkeeping. -/
def kindOfDefinition : Definition → Kind
  | .objectType _ => .objectTypeDefinition
  | .interfaceType _ => .interfaceTypeDefinition
  | .unionType _ => .unionTypeDefinition
  | .inputObjectType _ => .inputObjectTypeDefinition
  | .scalarType _ => .scalarTypeDefinition
  | .directiveDefinition => .directiveDefinition
  | .schemaDefinition => .schemaDefinition

/-- What `_schema.getType` reports about a name: the runtime classification
the fold consults (enum test, oneOf input object test and its field
names in schema order). -/
inductive SchemaType where
  | scalarType
  | enumType
  | objectType
  | inputObjectType (isOneOf : Bool) (fieldNames : List Str)
deriving DecidableEq

/-- The type registry of the validated schema, an external collaborator
supplied fully formed. -/
structure SchemaInfo where
  types : List (Str × SchemaType) := []
deriving DecidableEq

/-- Lookup in an association list keyed by strings (JavaScript object
property access). -/
def lookupStr {α : Type} (m : List (Str × α)) (k : Str) : Option α :=
  (m.find? (fun p => p.1 == k)).map (fun p => p.2)

/-- The schema's `getType`. -/
def SchemaInfo.getType (s : SchemaInfo) (n : Str) : Option SchemaType :=
  lookupStr s.types n

/-- Modelled from the spec: `isOneOfInputObjectType` is provided by
`@graphql-codegen/visitor-plugin-common` (not under `src/`).  Per the spec a
oneOf input object is "an input type where validity requires exactly one
declared field to be set"; the predicate holds exactly of input object types
flagged oneOf by the schema. -/
def isOneOfInputObjectType : Option SchemaType → Bool
  | some (.inputObjectType true _) => true
  | _ => false

/-- Field names of a schema type, as `Object.keys(parentType.getFields())`. -/
def SchemaType.fieldKeys : SchemaType → List Str
  | .inputObjectType _ fieldNames => fieldNames
  | _ => []

/-- The scalar map: scalar name to target type expression.  Only the keys
matter to the fold. -/
abbrev ScalarsMap := List (Str × Str)

/-- Modelled from the spec: `buildScalarsFromConfig` (not under `src/`)
builds the ScalarMap from configuration plus the built-in scalars; its keys
are schema scalar names and its values stable target-language type
expressions.  These are the five built-in scalars. -/
def defaultScalars : ScalarsMap :=
  [("ID".toList, "string".toList), ("String".toList, "string".toList),
   ("Boolean".toList, "boolean".toList), ("Int".toList, "number".toList),
   ("Float".toList, "number".toList)]

/-- The sub-object form of `avoidOptionals` (the source ignores a boolean
form: `typeof config.avoidOptionals === 'object' ? config.avoidOptionals :
\x7b\x7d`). -/
structure AvoidOptionalsConfig where
  field : Bool := false
  inputValue : Bool := false
  defaultValue : Bool := false
deriving DecidableEq

/-- The configuration options the fold reads. -/
structure TypeScriptPluginConfig where
  immutableTypes : Bool := false
  nonOptionalTypename : Bool := false
  skipTypename : Bool := false
  noExport : Bool := false
  onlyEnums : Bool := false
  onlyOperationTypes : Bool := false
  addUnderscoreToArgsType : Bool := false
  enumPrefixOpt : Bool := true
  typesPrefixOpt : Option Str := none
  typesSuffixOpt : Option Str := none
  avoidOptionals : AvoidOptionalsConfig := {}
  futureProofUnions : Bool := false
  wrapFieldDefinitions : Bool := false
  fieldWrapperValue : Option Str := none
  maybeValue : Option Str := none
  inputMaybeValue : Option Str := none
  directiveArgumentAndInputFieldMappings : Option (List (Str × Str)) := none
deriving DecidableEq

/-- The all-default configuration. -/
def defaultCfg : TypeScriptPluginConfig := {}

/-- Options record of `convertName` (absent boolean fields default to
`true`, as `typeof options?.useTypesPrefix === 'boolean' ? ... : true`). -/
structure ConvertOptions where
  useTypesPrefixOpt : Bool := true
  useTypesSuffixOpt : Bool := true
  typesPrefixOpt : Option Str := none
  typesSuffixOpt : Option Str := none

/-- Modelled from the spec: the naming/conversion function supplied by
`convertFactory` of `@graphql-codegen/visitor-plugin-common` (not under
`src/`).  The spec gives its interface as `(node-or-name, \x7bprefix?,
suffix?\x7d) -> identifier`, applied uniformly; the source fixes
`namingConvention: 'keep'`, so the name itself is returned unchanged between
the optional prefix and suffix. -/
def convertKeep (name : Str) (pfxOpt sfxOpt : Option Str) : Str :=
  pfxOpt.getD [] ++ name ++ sfxOpt.getD []

/-- Source `convertName`: optional types-prefix, the converted name (which
itself receives the prefix and suffix options), optional types-suffix. -/
def convertName (name : Str) (options : ConvertOptions := {}) : Str :=
  (if options.useTypesPrefixOpt && options.typesPrefixOpt.isSome then
    options.typesPrefixOpt.getD [] else []) ++
  convertKeep name options.typesPrefixOpt options.typesSuffixOpt ++
  (if options.useTypesSuffixOpt && options.typesSuffixOpt.isSome then
    options.typesSuffixOpt.getD [] else [])

/-- Source `getTypeForNode`: a name in the scalar map renders as a reference
into the generated `Scalars` container; an enum type gets the enum
prefix policy; anything else the default conversion. -/
def getTypeForNode (config : TypeScriptPluginConfig) (schema : SchemaInfo)
    (scalars : ScalarsMap) (typename : Str) : Str :=
  if (lookupStr scalars typename).isSome then
    "Scalars['".toList ++ typename ++ "']".toList
  else
    match schema.getType typename with
    | some .enumType =>
      convertName typename
        { useTypesPrefixOpt := config.enumPrefixOpt,
          typesPrefixOpt := config.typesPrefixOpt }
    | _ => convertName typename

/-- JavaScript truthiness of `config.fieldWrapperValue`. -/
def fieldWrapperTruthy (config : TypeScriptPluginConfig) : Bool :=
  match config.fieldWrapperValue with
  | some v => !v.isEmpty
  | none => false

/-- Source `NamedType` leave: resolve the reference, wrap it in
`FieldWrapper` when requested outside input positions, then apply the
context-sensitive nullability wrapper. -/
def namedTypeLeave (config : TypeScriptPluginConfig) (schema : SchemaInfo)
    (scalars : ScalarsMap) (ancestors : List AncestorEntry) (typename : Str) : Str :=
  let isVisitingInputType :=
    kindsInclude (getKindsFromAncestors ancestors) Kind.inputObjectTypeDefinition
  let typeToUse := getTypeForNode config schema scalars typename
  let typeToUse :=
    if !isVisitingInputType && fieldWrapperTruthy config && config.wrapFieldDefinitions then
      "FieldWrapper<".toList ++ typeToUse ++ ">".toList
    else typeToUse
  MaybeString ancestors typeToUse

/-- Source `ListType` leave: the context-sensitive wrapper around
`Array<` the already-folded element `>`. -/
def listTypeLeave (ancestors : List AncestorEntry) (foldedInner : Str) : Str :=
  MaybeString ancestors ("Array<".toList ++ foldedInner ++ ">".toList)

/-- Bottom-up fold of a type reference, dispatching the three type-node
leaves.  `ancestors` is the visitor's ancestor chain at this type node; the
recursive calls extend it with the current node's kind (the bookkeeping of
sibling arrays is dropped along the type chain: array entries never satisfy
the input-context test, which is all `MaybeString` reads). -/
def foldType (config : TypeScriptPluginConfig) (schema : SchemaInfo)
    (scalars : ScalarsMap) (ancestors : List AncestorEntry) : TypeNode → Str
  | .named n => namedTypeLeave config schema scalars ancestors n
  | .list inner =>
    listTypeLeave ancestors
      (foldType config schema scalars (ancestors ++ [AncestorEntry.node Kind.listType]) inner)
  | .nonNull inner =>
    nonNullTypeLeave
      (foldType config schema scalars (ancestors ++ [AncestorEntry.node Kind.nonNullType]) inner)

/-- JavaScript property access `.value` on an already-folded name.  By leave
time the `Name` leave has replaced every name node with its plain string
value (the source itself remarks twice that `node.name` is a string at
runtime), so reading `.value` of such a name yields `undefined`. -/
def jsStringValueProp (_s : Str) : Option Str := none

/-- Source `getDeprecationReason`: for a directive whose (folded) name is
the string `deprecated`, the fixed default reason, or — when arguments are
present — the syntactic kind name of the first argument's value (the
placeholder the spec's §9 open question points out). -/
def getDeprecationReason (directive : DirectiveNode) : Option Str :=
  if directive.name == "deprecated".toList then
    some (match directive.arguments with
      | [] => "Field no longer supported".toList
      | a :: _ => a.value.kindName)
  else none

/-- Modelled from the spec: `transformComment` is provided by
`@graphql-codegen/visitor-plugin-common` (not under `src/`).  Per §4.3 it
renders the optional leading comment text; an absent or empty text renders
as the empty string, anything else as an indented block comment. -/
def transformComment (comment : Option Str) (indentLevel : Nat) : Str :=
  match comment with
  | none => []
  | some c => if c.isEmpty then [] else indent ("/** ".toList ++ c ++ " */\n".toList) indentLevel

/-- Source `getNodeComment`: find a `deprecated` directive via
`v.name.value === 'deprecated'` — which on folded nodes compares
`undefined` to a string and never succeeds (see `jsStringValueProp`) — and
append `@deprecated reason` to the description before rendering. -/
def getNodeComment (description : Option Str) (directives : List DirectiveNode) : Str :=
  let deprecationDirective :=
    directives.find? (fun v => jsStringValueProp v.name == some ("deprecated".toList))
  let commentText : Option Str :=
    match deprecationDirective with
    | some d =>
      some ((match description with
              | some c => c ++ "\n".toList
              | none => []) ++
            "@deprecated ".toList ++ (getDeprecationReason d).getD ("undefined".toList))
    | none => description
  transformComment commentText 1

/-- Modelled from the spec: `DeclarationBlock` of
`@graphql-codegen/visitor-plugin-common` (not under `src/`), "a named,
exported or unexported, optionally commented textual unit (type alias,
interface, or union) — the unit of top-level output" (§3), with the
builder fields the source sets through `.export()`, `.asKind(...)`,
`.withName(...)`, `.withComment(...)`, `.withContent(...)`,
`.withBlock(...)`. -/
structure DeclarationBlock where
  ignoreExport : Bool := false
  exported : Bool := false
  kind : Str := []
  name : Str := []
  comment : Str := []
  content : Str := []
  block : Str := []
deriving DecidableEq

/-- Modelled from the spec: the body of a declaration block.  A non-empty
block renders inside braces after the content (§4.3: interface list then the
type's own field block); otherwise a non-empty content stands alone;
otherwise the body is the empty brace pair. -/
def DeclarationBlock.body (b : DeclarationBlock) : Str :=
  if !b.block.isEmpty then b.content ++ "\x7b\n".toList ++ b.block ++ "\n\x7d".toList
  else if !b.content.isEmpty then b.content
  else "\x7b\x7d".toList

/-- Modelled from the spec: the rendered string of a declaration block —
comment, `export` modifier (suppressible by configuration), kind, name,
body; type aliases take `=` and a closing semicolon. -/
def DeclarationBlock.string (b : DeclarationBlock) : Str :=
  b.comment ++
  (if b.exported && !b.ignoreExport then "export ".toList else []) ++
  b.kind ++ " ".toList ++ b.name ++
  (if b.kind == "type".toList then " = ".toList else " ".toList) ++
  b.body ++
  (if b.kind == "type".toList then ";\n".toList else "\n".toList)

/-- Source `mergeInterfaces`: the interface identifiers joined with ` & `,
plus a trailing combinator exactly when there are interfaces and other
fields. -/
def mergeInterfaces (interfaces : List Str) (hasOtherFields : Bool) : Str :=
  joinStr " & ".toList interfaces ++
  (if !interfaces.isEmpty && hasOtherFields then " & ".toList else [])

/-- Source `appendInterfacesAndFieldsToBlock`: set the content to the merged
interfaces and the block to the newline-joined fields. -/
def appendInterfacesAndFieldsToBlock (block : DeclarationBlock)
    (interfaces : List Str) (fields : List Str) : DeclarationBlock :=
  { block with
    content := mergeInterfaces interfaces (!fields.isEmpty),
    block := joinStr "\n".toList fields }

/-- The synthetic discriminant line of `getObjectTypeDeclarationBlock`:
`__typename` (optional unless configured otherwise) holding the type's name
as a literal. -/
def typenameLine (config : TypeScriptPluginConfig) (nodeName : Str) : Str :=
  let optionalTypename :=
    if config.nonOptionalTypename then "__typename".toList else "__typename?".toList
  indent ((if config.immutableTypes then "readonly ".toList else []) ++
    optionalTypename ++ ": '".toList ++ nodeName ++ "';".toList)

/-- The `allFields` list of `getObjectTypeDeclarationBlock`: the synthetic
discriminant line (unless `skipTypename`) followed by the folded field
strings. -/
def allFieldsOf (config : TypeScriptPluginConfig) (nodeName : Str)
    (foldedFields : List Str) : List Str :=
  (if config.skipTypename then [] else [typenameLine config nodeName]) ++ foldedFields

/-- Source `getObjectTypeDeclarationBlock`: an exported type alias named
after the node, carrying the comment, with interfaces and fields appended
(interface names come from the original node, fields from the folded
one). -/
def getObjectTypeDeclarationBlock (config : TypeScriptPluginConfig)
    (nodeName : Str) (nodeDescription : Option Str) (foldedFields : List Str)
    (originalInterfaces : List Str) : DeclarationBlock :=
  let allFields := allFieldsOf config nodeName foldedFields
  let interfacesNames := originalInterfaces.map (fun i => convertName i)
  let declarationBlock : DeclarationBlock :=
    { ignoreExport := config.noExport, exported := true, kind := "type".toList,
      name := convertName nodeName, comment := transformComment nodeDescription 0 }
  appendInterfacesAndFieldsToBlock declarationBlock interfacesNames allFields

/-- Source `buildArgumentsBlock`: for each original field that declares
arguments, an exported type alias named `TypeName[_]fieldNameArgs`; under
`onlyEnums` each such field contributes the empty string; the results are
newline-joined.  No content or block is ever attached to the declaration. -/
def buildArgumentsBlock (config : TypeScriptPluginConfig) (nodeName : Str)
    (nodeDescription : Option Str) (fields : List FieldDefinitionNode) : Str :=
  let fieldsWithArguments := fields.filter (fun field => !field.arguments.isEmpty)
  joinStr "\n".toList (fieldsWithArguments.map (fun field =>
    let name :=
      nodeName ++ (if config.addUnderscoreToArgsType then "_".toList else []) ++
      convertName field.name { useTypesPrefixOpt := false, useTypesSuffixOpt := false } ++
      "Args".toList
    if config.onlyEnums then []
    else
      DeclarationBlock.string
        { ignoreExport := config.noExport, exported := true, kind := "type".toList,
          name := convertName name, comment := transformComment nodeDescription 0 }))

/-- Source `_getDirectiveOverrideType`: the last directive with a configured
mapping wins, rendered as a reference into the
`DirectiveArgumentAndInputFieldMappings` container. -/
def _getDirectiveOverrideType (directives : List DirectiveNode)
    (mappings : List (Str × Str)) : Option Str :=
  ((directives.map (fun directive =>
      if (lookupStr mappings directive.name).isSome then
        some ("DirectiveArgumentAndInputFieldMappings['".toList ++ directive.name ++ "']".toList)
      else none)).reverse).findSome? (fun a => a)

/-- The `buildFieldDefinition` closure of the `InputValueDefinition` leave:
readonly marker, name, the optional sign (dropped in oneOf variants), and
the folded type (run through `clearOptional` in oneOf variants). -/
def buildFieldDefinition (readonlyPre nodeName : Str) (addOptionalSign : Bool)
    (typeStr : Str) (isOneOf : Bool) : Str :=
  readonlyPre ++ nodeName ++
  (if addOptionalSign && !isOneOf then "?".toList else []) ++ ": ".toList ++
  (if isOneOf then clearOptional typeStr else typeStr) ++ ";".toList

/-- The error message the `InputValueDefinition` leave throws for a non-null
field of a oneOf input object. -/
def oneOfErrorMessage : Str :=
  "Fields on an input object type can not be non-nullable. It seems like the schema was not validated.".toList

/-- Source `InputValueDefinition` leave.  `original` is the pre-fold node
(`parent[key]`), `realParentName` the name of the last ancestor node, and
`ancestors` the ancestor chain used to fold the value's type.  For a field
of a oneOf input object the leave either throws (original type non-null) or
renders the whole variant shape; otherwise it renders one field line. -/
def inputValueDefinitionLeave (config : TypeScriptPluginConfig) (schema : SchemaInfo)
    (scalars : ScalarsMap) (ancestors : List AncestorEntry)
    (original : InputValueDefinitionNode) (realParentName : Str) : Except Str Str :=
  let avoidOptionalsConfig := config.avoidOptionals
  let addOptionalSign :=
    !avoidOptionalsConfig.inputValue &&
    (!isNonNullType original.type ||
      (!avoidOptionalsConfig.defaultValue && original.defaultValue))
  let comment := getNodeComment original.description original.directives
  let type0 := foldType config schema scalars ancestors original.type
  let typeStr :=
    match config.directiveArgumentAndInputFieldMappings with
    | some mappings => (_getDirectiveOverrideType original.directives mappings).getD type0
    | none => type0
  let readonlyPre := if config.immutableTypes then "readonly ".toList else []
  let parentType := schema.getType realParentName
  if isOneOfInputObjectType parentType then
    if isNonNullType original.type then .error oneOfErrorMessage
    else
      let fieldParts :=
        ((parentType.getD SchemaType.objectType).fieldKeys).map (fun fieldName =>
          if fieldName == original.name then
            buildFieldDefinition readonlyPre original.name addOptionalSign typeStr true
          else readonlyPre ++ fieldName ++ "?: never;".toList)
      .ok (comment ++ indent ("\x7b ".toList ++ joinStr " ".toList fieldParts ++ " \x7d".toList))
  else
    .ok (comment ++ indent (buildFieldDefinition readonlyPre original.name addOptionalSign typeStr false))

/-- Source `FieldDefinition` leave: optional `EntireFieldWrapper`, optional
sign from the original node's nullability, comment, readonly marker. -/
def fieldDefinitionLeave (config : TypeScriptPluginConfig) (schema : SchemaInfo)
    (scalars : ScalarsMap) (ancestors : List AncestorEntry)
    (original : FieldDefinitionNode) : Str :=
  let foldedType := foldType config schema scalars ancestors original.type
  let typeString :=
    if config.wrapFieldDefinitions then
      "EntireFieldWrapper<".toList ++ foldedType ++ ">".toList
    else foldedType
  let addOptionalSign :=
    !config.avoidOptionals.field && !isNonNullType original.type
  let comment := getNodeComment original.description original.directives
  comment ++
  indent ((if config.immutableTypes then "readonly ".toList else []) ++
    original.name ++ (if addOptionalSign then "?".toList else []) ++ ": ".toList ++
    typeString ++ ";".toList)

/-- The member rendering of the `UnionTypeDefinition` leave: a scalar-map
key renders as a `Scalars` container reference, anything else through
`convertName`. -/
def unionMemberType (scalars : ScalarsMap) (t : Str) : Str :=
  if (lookupStr scalars t).isSome then "Scalars['".toList ++ t ++ "']".toList
  else convertName t

/-- Source `UnionTypeDefinition` leave: suppressed under
`onlyOperationTypes`/`onlyEnums`; otherwise an exported type alias whose
content is the pipe-joined member renderings, plus the optional future-proof
catch-all variant. -/
def unionTypeDefinitionLeave (config : TypeScriptPluginConfig)
    (scalars : ScalarsMap) (node : UnionTypeDefinitionNode) : Str :=
  if config.onlyOperationTypes || config.onlyEnums then []
  else
    let withFutureAddedValue :=
      if config.futureProofUnions then
        [if config.immutableTypes then "\x7b readonly __typename?: \"%other\" \x7d".toList
         else "\x7b __typename?: \"%other\" \x7d".toList]
      else []
    let possibleTypes :=
      joinStr " | ".toList ((node.types.map (unionMemberType scalars)) ++ withFutureAddedValue)
    DeclarationBlock.string
      { ignoreExport := config.noExport, exported := true, kind := "type".toList,
        name := convertName node.name, comment := transformComment node.description 0,
        content := possibleTypes }

/-- Source `InterfaceTypeDefinition` leave: suppressed under
`onlyOperationTypes`/`onlyEnums`; otherwise an exported interface block over
the folded fields, followed (two newlines, empties filtered) by the
arguments block built from the original node. -/
def interfaceTypeDefinitionLeave (config : TypeScriptPluginConfig)
    (original : InterfaceTypeDefinitionNode) (foldedFields : List Str) : Str :=
  if config.onlyOperationTypes || config.onlyEnums then []
  else
    let declarationBlock : DeclarationBlock :=
      { ignoreExport := config.noExport, exported := true, kind := "interface".toList,
        name := convertName original.name, comment := transformComment original.description 0,
        block := joinStr "\n".toList foldedFields }
    joinStr "\n\n".toList
      (([declarationBlock.string,
         buildArgumentsBlock config original.name original.description original.fields].filter
        (fun f => !f.isEmpty)))

/-- Source `ObjectTypeDefinition` leave: suppressed under
`onlyOperationTypes`/`onlyEnums`; otherwise the object declaration block's
string directly concatenated with the arguments block. -/
def objectTypeDefinitionLeave (config : TypeScriptPluginConfig)
    (original : ObjectTypeDefinitionNode) (foldedFields : List Str) : Str :=
  if config.onlyOperationTypes || config.onlyEnums then []
  else
    (getObjectTypeDeclarationBlock config original.name original.description
        foldedFields original.interfaces).string ++
    buildArgumentsBlock config original.name original.description original.fields

/-- Source `InputObjectTypeDefinition` leave: suppressed under `onlyEnums`
only; a oneOf input object renders its folded fields as a pipe-joined union
content, any other input object as a newline-joined block. -/
def inputObjectTypeDefinitionLeave (config : TypeScriptPluginConfig)
    (schema : SchemaInfo) (nodeName : Str) (nodeDescription : Option Str)
    (foldedFields : List Str) : Str :=
  if config.onlyEnums then []
  else if isOneOfInputObjectType (schema.getType nodeName) then
    DeclarationBlock.string
      { ignoreExport := config.noExport, exported := true, kind := "type".toList,
        name := convertName nodeName, comment := transformComment nodeDescription 0,
        content := "\n".toList ++ joinStr "\n  |".toList foldedFields }
  else
    DeclarationBlock.string
      { ignoreExport := config.noExport, exported := true, kind := "type".toList,
        name := convertName nodeName, comment := transformComment nodeDescription 0,
        block := joinStr "\n".toList foldedFields }

/-- Visit a list of children in order, aborting at the first thrown error,
as the depth-first visitor does when a leave callback throws. -/
def mapVisit {α : Type} (f : α → Except Str Str) : List α → Except Str (List Str)
  | [] => .ok []
  | x :: xs =>
    match f x with
    | .error e => .error e
    | .ok s =>
      match mapVisit f xs with
      | .error e => .error e
      | .ok rest => .ok (s :: rest)

/-- Fold an object type definition: fold each field bottom-up, then apply
the leave.  `ancestors` is the chain above the definition node. -/
def foldObjectTypeDefinition (config : TypeScriptPluginConfig) (schema : SchemaInfo)
    (scalars : ScalarsMap) (ancestors : List AncestorEntry)
    (o : ObjectTypeDefinitionNode) : Str :=
  let fieldAncestors :=
    ancestors ++ [AncestorEntry.node Kind.objectTypeDefinition,
      AncestorEntry.array (List.replicate o.fields.length Kind.fieldDefinition)]
  objectTypeDefinitionLeave config o
    (o.fields.map (fieldDefinitionLeave config schema scalars fieldAncestors))

/-- Fold an interface type definition. -/
def foldInterfaceTypeDefinition (config : TypeScriptPluginConfig) (schema : SchemaInfo)
    (scalars : ScalarsMap) (ancestors : List AncestorEntry)
    (i : InterfaceTypeDefinitionNode) : Str :=
  let fieldAncestors :=
    ancestors ++ [AncestorEntry.node Kind.interfaceTypeDefinition,
      AncestorEntry.array (List.replicate i.fields.length Kind.fieldDefinition)]
  interfaceTypeDefinitionLeave config i
    (i.fields.map (fieldDefinitionLeave config schema scalars fieldAncestors))

/-- Fold an input object type definition: fold each input value bottom-up
(this is where a oneOf violation throws, before the definition's own leave
runs), then apply the leave. -/
def foldInputObjectTypeDefinition (config : TypeScriptPluginConfig) (schema : SchemaInfo)
    (scalars : ScalarsMap) (ancestors : List AncestorEntry)
    (io_ : InputObjectTypeDefinitionNode) : Except Str Str :=
  let fieldAncestors :=
    ancestors ++ [AncestorEntry.node Kind.inputObjectTypeDefinition,
      AncestorEntry.array (List.replicate io_.fields.length Kind.inputValueDefinition)]
  match mapVisit
      (fun f => inputValueDefinitionLeave config schema scalars fieldAncestors f io_.name)
      io_.fields with
  | .error e => .error e
  | .ok foldedFields =>
    .ok (inputObjectTypeDefinitionLeave config schema io_.name io_.description foldedFields)

/-- Fold one top-level definition.  Scalar, directive and schema definitions
fold to the empty fragment. -/
def foldDefinition (config : TypeScriptPluginConfig) (schema : SchemaInfo)
    (scalars : ScalarsMap) (ancestors : List AncestorEntry) :
    Definition → Except Str Str
  | .objectType o => .ok (foldObjectTypeDefinition config schema scalars ancestors o)
  | .interfaceType i => .ok (foldInterfaceTypeDefinition config schema scalars ancestors i)
  | .unionType u => .ok (unionTypeDefinitionLeave config scalars u)
  | .inputObjectType io_ => foldInputObjectTypeDefinition config schema scalars ancestors io_
  | .scalarType _ => .ok []
  | .directiveDefinition => .ok []
  | .schemaDefinition => .ok []

/-- Visit the whole document: every definition, in order, under the document
ancestors. -/
def visitDefinitions (config : TypeScriptPluginConfig) (schema : SchemaInfo)
    (scalars : ScalarsMap) (defs : List Definition) : Except Str (List Str) :=
  mapVisit
    (foldDefinition config schema scalars
      [AncestorEntry.node Kind.document, AncestorEntry.array (defs.map kindOfDefinition)])
    defs

/-- Modelled from the spec: the scalars container declaration of the
top-level assembly (§6: "a scalars container declaration" first in the
assembled body). -/
def scalarsContainerDeclaration (scalars : ScalarsMap) : Str :=
  "export type Scalars = \x7b\n".toList ++
  joinStr "\n".toList (scalars.map (fun p => "  ".toList ++ p.1 ++ ": ".toList ++ p.2 ++ ";".toList)) ++
  "\n\x7d;\n".toList

/-- The output unit of the plugin: prepended statements and the assembled
content. -/
structure PluginOutput where
  prepend : List Str := []
  content : Str := []
deriving DecidableEq

/-- Source `getWrapperDefinitions`: the helper-type definitions, absent
under `onlyEnums`. -/
def getWrapperDefinitions (config : TypeScriptPluginConfig) : List Str :=
  if config.onlyEnums then []
  else
    let exportPre := if config.noExport then [] else "export ".toList
    let exactDefinition :=
      exportPre ++ "type Exact<T extends \x7b [key: string]: unknown \x7d> = \x7b [K in keyof T]: T[K] \x7d;".toList
    let optionalDefinition :=
      exportPre ++ "type MakeOptional<T, K extends keyof T> = Omit<T, K> & \x7b [SubKey in K]?: Maybe<T[SubKey]> \x7d;".toList
    let maybeDefinition :=
      exportPre ++ "type MakeMaybe<T, K extends keyof T> = Omit<T, K> & \x7b [SubKey in K]: Maybe<T[SubKey]> \x7d;".toList
    let maybeValue :=
      exportPre ++ "type Maybe<T> = ".toList ++ (config.maybeValue.getD ("T | null".toList)) ++ ";".toList
    let inputMaybeValue :=
      exportPre ++ "type InputMaybe<T> = ".toList ++
        (config.inputMaybeValue.getD ("Maybe<T>".toList)) ++ ";".toList
    [maybeValue, inputMaybeValue, exactDefinition, optionalDefinition, maybeDefinition]

/-- The plugin: visit the document (a thrown error propagates — no output
unit is produced), then assemble the scalars container and the folded
definitions into the content. -/
def plugin (config : TypeScriptPluginConfig) (schema : SchemaInfo)
    (scalars : ScalarsMap) (defs : List Definition) : Except Str PluginOutput :=
  match visitDefinitions config schema scalars defs with
  | .error e => .error e
  | .ok visitorResult =>
    .ok { prepend := getWrapperDefinitions config,
          content :=
            joinStr "\n".toList
              ((scalarsContainerDeclaration scalars :: visitorResult).filter
                (fun s => !s.isEmpty)) }

/-! Helper lemmas about the string primitives. -/

/-- An empty type registry. -/
def exSchemaEmpty : SchemaInfo := {}

/-- A field `foo: String` carrying a bare `@deprecated` directive. -/
def exDeprecatedField : FieldDefinitionNode :=
  { name := "foo".toList, type := TypeNode.named ("String".toList),
    directives := [{ name := "deprecated".toList }] }

/-- A `@deprecated(reason: "Use bar instead")` directive. -/
def exDeprecatedWithReason : DirectiveNode :=
  { name := "deprecated".toList,
    arguments := [{ name := "reason".toList,
                    value := ValueNode.stringValue ("Use bar instead".toList) }] }

/-- A configuration with `onlyOperationTypes` switched on. -/
def cfgOnlyOperation : TypeScriptPluginConfig := { onlyOperationTypes := true }

/-- A oneOf input object with a non-null field (invalid). -/
def exOneOfBad : InputObjectTypeDefinitionNode :=
  { name := "BadOneOf".toList,
    fields := [{ name := "a".toList, type := TypeNode.nonNull (TypeNode.named ("Int".toList)) }] }

/-- A oneOf input object with a nullable field (valid). -/
def exOneOfGood : InputObjectTypeDefinitionNode :=
  { name := "GoodOneOf".toList,
    fields := [{ name := "a".toList, type := TypeNode.named ("Int".toList) }] }

/-- A type registry flagging both example input objects as oneOf. -/
def exOneOfSchemaBadGood : SchemaInfo :=
  { types := [("BadOneOf".toList, SchemaType.inputObjectType true ["a".toList]),
              ("GoodOneOf".toList, SchemaType.inputObjectType true ["a".toList])] }

/-- A field `foo(id: Int!): String`. -/
def exArgsField : FieldDefinitionNode :=
  { name := "foo".toList, type := TypeNode.named ("String".toList),
    arguments := [{ name := "id".toList,
                    type := TypeNode.nonNull (TypeNode.named ("Int".toList)) }] }

/-- A field `f1(x: Int): Int`. -/
def exArgsFieldF1 : FieldDefinitionNode :=
  { name := "f1".toList, type := TypeNode.named ("Int".toList),
    arguments := [{ name := "x".toList, type := TypeNode.named ("Int".toList) }] }

/-- A field `f2(y: Int): Int`. -/
def exArgsFieldF2 : FieldDefinitionNode :=
  { name := "f2".toList, type := TypeNode.named ("Int".toList),
    arguments := [{ name := "y".toList, type := TypeNode.named ("Int".toList) }] }

/-- A field `a: Int` (nullable). -/
def exFieldAInt : InputValueDefinitionNode :=
  { name := "a".toList, type := TypeNode.named ("Int".toList) }

/-- A field `b: String` (nullable). -/
def exFieldBString : InputValueDefinitionNode :=
  { name := "b".toList, type := TypeNode.named ("String".toList) }

/-- A registry flagging `ExampleOneOf` as a oneOf input object with fields
`a`, `b`. -/
def exOneOfPairSchema : SchemaInfo :=
  { types := [("ExampleOneOf".toList,
               SchemaType.inputObjectType true ["a".toList, "b".toList])] }

/-- The ancestor chain of the two fields of `ExampleOneOf` in a one-type
document. -/
def exPairAncestors : List AncestorEntry :=
  [AncestorEntry.node Kind.document, AncestorEntry.array [Kind.inputObjectTypeDefinition],
   AncestorEntry.node Kind.inputObjectTypeDefinition,
   AncestorEntry.array (List.replicate 2 Kind.inputValueDefinition)]

theorem strStartsWith_append_self (p s : Str) : strStartsWith (p ++ s) p = true := by
  induction p with
  | nil => simp [strStartsWith]
  | cons c cs ih => simp [strStartsWith, ih]

theorem wrapMatchGroup_wrap (pat grp : Str) (h : grp.all (fun c => c != '\n') = true) :
    wrapMatchGroup pat (pat ++ (grp ++ ['>'])) = some grp := by
  have h1 : strStartsWith (pat ++ (grp ++ ['>'])) pat = true := strStartsWith_append_self _ _
  have h2 : (pat ++ (grp ++ ['>'])).drop pat.length = grp ++ ['>'] :=
    List.drop_left pat (grp ++ ['>'])
  simp [wrapMatchGroup, h1, h2, List.getLast?_concat, List.dropLast_concat, h]

theorem wrapMatchGroup_nil (pat : Str) : wrapMatchGroup pat [] = none := by
  cases pat <;> simp [wrapMatchGroup, strStartsWith]

theorem regexReplaceToEnd_of_match (pat : Str) (l : List Char) (g : Str)
    (h : wrapMatchGroup pat l = some g) : regexReplaceToEnd pat l = g := by
  cases l with
  | nil => rw [wrapMatchGroup_nil] at h; cases h
  | cons c rest => simp [regexReplaceToEnd, h]

theorem regex_wrap_roundtrip (p grp : Str) (h : grp.all (fun c => c != '\n') = true) :
    regexReplaceToEnd (p ++ ['<']) ((p ++ ['<']) ++ (grp ++ ['>'])) = grp :=
  regexReplaceToEnd_of_match _ _ _ (wrapMatchGroup_wrap _ _ h)

theorem nonNull_unwrap_maybe (s : Str) (h : s.all (fun c => c != '\n') = true) :
    nonNullTypeLeave ("Maybe<".toList ++ s ++ ">".toList) = s := by
  have h1 : strStartsWith ("Maybe<".toList ++ s ++ ">".toList) ("Maybe".toList) = true :=
    strStartsWith_append_self ("Maybe".toList) ('<' :: (s ++ ">".toList))
  simp only [nonNullTypeLeave, h1, if_true]
  exact regex_wrap_roundtrip ("Maybe".toList) s h

theorem nonNull_unwrap_inputMaybe (s : Str) (h : s.all (fun c => c != '\n') = true) :
    nonNullTypeLeave ("InputMaybe<".toList ++ s ++ ">".toList) = s := by
  have h1 : strStartsWith ("InputMaybe<".toList ++ s ++ ">".toList) ("Maybe".toList) = false := rfl
  have h2 : strStartsWith ("InputMaybe<".toList ++ s ++ ">".toList) ("InputMaybe".toList) = true :=
    strStartsWith_append_self ("InputMaybe".toList) ('<' :: (s ++ ">".toList))
  simp only [nonNullTypeLeave, h1, h2, Bool.false_eq_true, if_false, if_true]
  exact regex_wrap_roundtrip ("InputMaybe".toList) s h

theorem convertName_default (n : Str) : convertName n = n := by
  simp [convertName, convertKeep]

theorem convertName_noPrefix (n : Str) :
    convertName n { useTypesPrefixOpt := false, useTypesSuffixOpt := false } = n := by
  simp [convertName, convertKeep]

theorem mapVisit_ok {α : Type} (f : α → Except Str Str) (g : α → Str) (l : List α)
    (h : ∀ x ∈ l, f x = .ok (g x)) : mapVisit f l = .ok (l.map g) := by
  induction l with
  | nil => rfl
  | cons x xs ih =>
    simp [mapVisit, h x (by simp), ih (fun y hy => h y (by simp [hy]))]

theorem DeclarationBlock.string_ne_nil (b : DeclarationBlock) : b.string ≠ [] := by
  intro h
  have hlen := congrArg List.length h
  simp only [DeclarationBlock.string, List.length_append, List.length_nil] at hlen
  have hsp : (" ".toList).length = 1 := rfl
  rw [hsp] at hlen
  omega

/-! Concrete schema material used by the closed theorems below. -/

/-! The claims. -/

/-- C6: for every rendered type string, in both the input and the output
context, applying the context's nullability wrapper (`MaybeString`) and then
the non-null unwrap rule (the `NonNullType` leave) reproduces the original
rendering exactly.  Rendered type strings contain no newline, which the
hypothesis records (the unwrap regex's `.` does not match newlines). -/
theorem nullability_wrap_unwrap_roundtrip (ancestors : List AncestorEntry) (s : Str)
    (h : s.all (fun c => c != '\n') = true) :
    nonNullTypeLeave (MaybeString ancestors s) = s := by
  by_cases hc :
    kindsInclude (getKindsFromAncestors ancestors) Kind.inputObjectTypeDefinition = true
  · simp only [MaybeString, hc, if_true]
    exact nonNull_unwrap_inputMaybe s h
  · have hc' :
        kindsInclude (getKindsFromAncestors ancestors) Kind.inputObjectTypeDefinition = false :=
      Bool.eq_false_iff.mpr hc
    simp only [MaybeString, hc', Bool.false_eq_true, if_false]
    exact nonNull_unwrap_maybe s h

/-- Witness for C6: the two-level nested rendering
`Array<InputMaybe<Scalars['Int']>>` round-trips in input context, and its
`Maybe` counterpart in output context. -/
theorem nullability_wrap_unwrap_roundtrip_witness :
    nonNullTypeLeave (MaybeString [AncestorEntry.node Kind.inputObjectTypeDefinition]
        ("Array<InputMaybe<Scalars['Int']>>".toList)) =
      "Array<InputMaybe<Scalars['Int']>>".toList ∧
    nonNullTypeLeave (MaybeString [AncestorEntry.node Kind.objectTypeDefinition]
        ("Array<Maybe<Scalars['Int']>>".toList)) =
      "Array<Maybe<Scalars['Int']>>".toList :=
  ⟨nullability_wrap_unwrap_roundtrip _ _ (by decide),
   nullability_wrap_unwrap_roundtrip _ _ (by decide)⟩

/-- C7: a list type node always renders as the context-sensitive wrapper
around `Array<T>` — `InputMaybe<Array<T>>` when some ancestor is an input
object definition and `Maybe<Array<T>>` otherwise — independent of the
already-folded element rendering `t`. -/
theorem list_type_wrapper (config : TypeScriptPluginConfig) (schema : SchemaInfo)
    (scalars : ScalarsMap) (ancestors : List AncestorEntry) (inner : TypeNode) (t : Str) :
    foldType config schema scalars ancestors (TypeNode.list inner) =
      listTypeLeave ancestors
        (foldType config schema scalars
          (ancestors ++ [AncestorEntry.node Kind.listType]) inner) ∧
    listTypeLeave ancestors t =
      (if kindsInclude (getKindsFromAncestors ancestors) Kind.inputObjectTypeDefinition then
        "InputMaybe<Array<".toList ++ t ++ ">>".toList
      else "Maybe<Array<".toList ++ t ++ ">>".toList) := by
  refine ⟨rfl, ?_⟩
  by_cases hc :
    kindsInclude (getKindsFromAncestors ancestors) Kind.inputObjectTypeDefinition = true
  · simp only [listTypeLeave, MaybeString, hc, if_true, List.append_assoc]
    rfl
  · have hc' :
        kindsInclude (getKindsFromAncestors ancestors) Kind.inputObjectTypeDefinition = false :=
      Bool.eq_false_iff.mpr hc
    simp only [listTypeLeave, MaybeString, hc', Bool.false_eq_true, if_false, List.append_assoc]
    rfl

/-- C10: in the selected-field arm of a oneOf variant only the optional sign
is removed (the type goes through `clearOptional` and nothing else), and
`clearOptional` strips only strings carrying the `Maybe` prefix: a string
starting with `InputMaybe<` is returned unchanged, any change implies the
`Maybe` prefix, and a `Maybe<...>`-wrapped string is unwrapped. -/
theorem oneOf_clearOptional_inputMaybe (r n ty s : Str) :
    buildFieldDefinition r n true ty true =
      r ++ n ++ ": ".toList ++ clearOptional ty ++ ";".toList ∧
    buildFieldDefinition r n true ty false =
      r ++ n ++ "?".toList ++ ": ".toList ++ ty ++ ";".toList ∧
    clearOptional ("InputMaybe<".toList ++ s) = "InputMaybe<".toList ++ s ∧
    (clearOptional s ≠ s → strStartsWith s ("Maybe".toList) = true) ∧
    (s.all (fun c => c != '\n') = true →
      clearOptional ("Maybe<".toList ++ s ++ ">".toList) = s) := by
  refine ⟨by simp [buildFieldDefinition], by simp [buildFieldDefinition], rfl, ?_, ?_⟩
  · intro hne
    by_cases hm : strStartsWith s ("Maybe".toList) = true
    · exact hm
    · exfalso
      apply hne
      have hm' : strStartsWith s ("Maybe".toList) = false := Bool.eq_false_iff.mpr hm
      unfold clearOptional
      rw [hm']
      simp
  · intro h
    have h1 : strStartsWith ("Maybe<".toList ++ s ++ ">".toList) ("Maybe".toList) = true :=
      strStartsWith_append_self ("Maybe".toList) ('<' :: (s ++ ">".toList))
    simp only [clearOptional, h1, if_true]
    exact regex_wrap_roundtrip ("Maybe".toList) s h

/-- Witness for C10: the arm line for a selected field keeps the
`InputMaybe` wrapper, and `clearOptional` does unwrap a `Maybe`-wrapped
string. -/
theorem oneOf_clearOptional_inputMaybe_witness :
    buildFieldDefinition [] ("a".toList) true ("InputMaybe<Scalars['Int']>".toList) true =
      "a: InputMaybe<Scalars['Int']>;".toList ∧
    clearOptional ("Maybe<Scalars['Int']>".toList) = "Scalars['Int']".toList := by
  have h := oneOf_clearOptional_inputMaybe [] ("a".toList)
    ("InputMaybe<Scalars['Int']>".toList) ("Scalars['Int']".toList)
  refine ⟨by rw [h.1]; decide, ?_⟩
  have h5 := h.2.2.2.2 (by decide)
  have he : ("Maybe<".toList ++ "Scalars['Int']".toList ++ ">".toList) =
      "Maybe<Scalars['Int']>".toList := by decide
  exact he ▸ h5

/-- C5: a named type reference whose name is a key of the scalar map
resolves to a reference into the `Scalars` container — in `getTypeForNode`,
in the union-member rendering, and (wrapped in the context's nullability
wrapper) at every occurrence the `NamedType` leave folds. -/
theorem scalar_reference_resolution (config : TypeScriptPluginConfig) (schema : SchemaInfo)
    (scalars : ScalarsMap) (ancestors : List AncestorEntry) (n v : Str)
    (h : lookupStr scalars n = some v) (hw : config.wrapFieldDefinitions = false) :
    getTypeForNode config schema scalars n = "Scalars['".toList ++ n ++ "']".toList ∧
    unionMemberType scalars n = "Scalars['".toList ++ n ++ "']".toList ∧
    namedTypeLeave config schema scalars ancestors n =
      MaybeString ancestors ("Scalars['".toList ++ n ++ "']".toList) := by
  have hg : getTypeForNode config schema scalars n = "Scalars['".toList ++ n ++ "']".toList := by
    simp [getTypeForNode, h]
  exact ⟨hg, by simp [unionMemberType, h], by simp [namedTypeLeave, hg, hw]⟩

/-- Witness for C5: a scalar `DateTime` mapped to `Date` renders as
`Scalars['DateTime']` in the resolver, in output and input field positions,
and as a union member. -/
theorem scalar_reference_resolution_witness :
    getTypeForNode defaultCfg exSchemaEmpty [("DateTime".toList, "Date".toList)]
        ("DateTime".toList) = "Scalars['DateTime']".toList ∧
    namedTypeLeave defaultCfg exSchemaEmpty [("DateTime".toList, "Date".toList)]
        [AncestorEntry.node Kind.objectTypeDefinition, AncestorEntry.node Kind.fieldDefinition]
        ("DateTime".toList) = "Maybe<Scalars['DateTime']>".toList ∧
    namedTypeLeave defaultCfg exSchemaEmpty [("DateTime".toList, "Date".toList)]
        [AncestorEntry.node Kind.inputObjectTypeDefinition]
        ("DateTime".toList) = "InputMaybe<Scalars['DateTime']>".toList ∧
    unionMemberType [("DateTime".toList, "Date".toList)] ("DateTime".toList) =
      "Scalars['DateTime']".toList := by
  have h1 := scalar_reference_resolution defaultCfg exSchemaEmpty
    [("DateTime".toList, "Date".toList)]
    [AncestorEntry.node Kind.objectTypeDefinition, AncestorEntry.node Kind.fieldDefinition]
    ("DateTime".toList) ("Date".toList) (by decide) rfl
  have h2 := scalar_reference_resolution defaultCfg exSchemaEmpty
    [("DateTime".toList, "Date".toList)]
    [AncestorEntry.node Kind.inputObjectTypeDefinition]
    ("DateTime".toList) ("Date".toList) (by decide) rfl
  refine ⟨by rw [h1.1]; decide, by rw [h1.2.2]; decide, by rw [h2.2.2]; decide,
    by rw [h1.2.1]; decide⟩

/-- C2: the code drops deprecation comments entirely.  A bare `@deprecated`
directive produces no comment at all (`getNodeComment` looks the directive
up via `v.name.value === 'deprecated'`, but folded directive names are plain
strings, so the lookup never succeeds), the rendered field line carries no
`@deprecated` text, and with an explicit reason argument
`getDeprecationReason` would return the value's syntactic kind name
`StringValue` rather than the literal reason. -/
theorem deprecated_directive_comment_dropped :
    getNodeComment none [{ name := "deprecated".toList }] = [] ∧
    fieldDefinitionLeave defaultCfg exSchemaEmpty defaultScalars [] exDeprecatedField =
      "  foo?: Maybe<Scalars['String']>;".toList ∧
    containsSubstr ("@deprecated".toList)
      (fieldDefinitionLeave defaultCfg exSchemaEmpty defaultScalars [] exDeprecatedField) =
      false ∧
    getDeprecationReason exDeprecatedWithReason = some ("StringValue".toList) := by
  exact ⟨rfl, by decide, by decide, by decide⟩

/-- C9: with `onlyOperationTypes` set and `onlyEnums` unset, the object,
interface and union leaves fold to the empty fragment, while the input
object leave still renders a declaration. -/
theorem onlyOperationTypes_suppression (config : TypeScriptPluginConfig)
    (hOp : config.onlyOperationTypes = true) (hEn : config.onlyEnums = false)
    (schema : SchemaInfo) (scalars : ScalarsMap)
    (o : ObjectTypeDefinitionNode) (i : InterfaceTypeDefinitionNode)
    (u : UnionTypeDefinitionNode) (foldedO foldedI : List Str)
    (nodeName : Str) (desc : Option Str) (foldedFields : List Str) :
    objectTypeDefinitionLeave config o foldedO = [] ∧
    interfaceTypeDefinitionLeave config i foldedI = [] ∧
    unionTypeDefinitionLeave config scalars u = [] ∧
    inputObjectTypeDefinitionLeave config schema nodeName desc foldedFields ≠ [] := by
  refine ⟨by simp [objectTypeDefinitionLeave, hOp],
    by simp [interfaceTypeDefinitionLeave, hOp],
    by simp [unionTypeDefinitionLeave, hOp], ?_⟩
  simp only [inputObjectTypeDefinitionLeave, hEn, Bool.false_eq_true, if_false]
  split
  · exact DeclarationBlock.string_ne_nil _
  · exact DeclarationBlock.string_ne_nil _

/-- Witness for C9 at concrete nodes. -/
theorem onlyOperationTypes_suppression_witness :
    objectTypeDefinitionLeave cfgOnlyOperation { name := "O".toList } [] = [] ∧
    interfaceTypeDefinitionLeave cfgOnlyOperation { name := "I".toList } [] = [] ∧
    unionTypeDefinitionLeave cfgOnlyOperation defaultScalars { name := "U".toList } = [] ∧
    inputObjectTypeDefinitionLeave cfgOnlyOperation exSchemaEmpty ("In".toList) none [] ≠ [] :=
  onlyOperationTypes_suppression cfgOnlyOperation rfl rfl exSchemaEmpty defaultScalars
    { name := "O".toList } { name := "I".toList } { name := "U".toList } [] []
    ("In".toList) none []

/-- A non-null field of a oneOf input object makes the
`InputValueDefinition` leave throw. -/
theorem inputValueDefinitionLeave_oneOf_error (config : TypeScriptPluginConfig)
    (schema : SchemaInfo) (scalars : ScalarsMap) (anc : List AncestorEntry)
    (original : InputValueDefinitionNode) (parentName : Str)
    (hOneOf : isOneOfInputObjectType (schema.getType parentName) = true)
    (hNN : isNonNullType original.type = true) :
    inputValueDefinitionLeave config schema scalars anc original parentName =
      .error oneOfErrorMessage := by
  simp [inputValueDefinitionLeave, hOneOf, hNN]

/-- A nullable field of a oneOf input object folds without error. -/
theorem inputValueDefinitionLeave_oneOf_ok (config : TypeScriptPluginConfig)
    (schema : SchemaInfo) (scalars : ScalarsMap) (anc : List AncestorEntry)
    (original : InputValueDefinitionNode) (parentName : Str)
    (hOneOf : isOneOfInputObjectType (schema.getType parentName) = true)
    (hNN : isNonNullType original.type = false) :
    ∃ s, inputValueDefinitionLeave config schema scalars anc original parentName = .ok s := by
  cases h : inputValueDefinitionLeave config schema scalars anc original parentName with
  | ok s => exact ⟨s, rfl⟩
  | error e =>
    exfalso
    simp [inputValueDefinitionLeave, hOneOf, hNN] at h

/-- Visiting the fields of a oneOf input object throws the non-nullability
error as soon as some field is non-null. -/
theorem mapVisit_oneOf_error (config : TypeScriptPluginConfig) (schema : SchemaInfo)
    (scalars : ScalarsMap) (anc : List AncestorEntry) (parentName : Str)
    (hOneOf : isOneOfInputObjectType (schema.getType parentName) = true)
    (fields : List InputValueDefinitionNode)
    (hex : ∃ f ∈ fields, isNonNullType f.type = true) :
    mapVisit (fun f => inputValueDefinitionLeave config schema scalars anc f parentName)
      fields = .error oneOfErrorMessage := by
  induction fields with
  | nil => rcases hex with ⟨f, hf, _⟩; cases hf
  | cons g gs ih =>
    rcases hex with ⟨f, hf, hNN⟩
    rcases List.mem_cons.mp hf with hfg | hfgs
    · subst hfg
      simp [mapVisit,
        inputValueDefinitionLeave_oneOf_error config schema scalars anc f parentName hOneOf hNN]
    · cases hg : isNonNullType g.type with
      | true =>
        simp [mapVisit,
          inputValueDefinitionLeave_oneOf_error config schema scalars anc g parentName hOneOf hg]
      | false =>
        rcases inputValueDefinitionLeave_oneOf_ok config schema scalars anc g parentName
          hOneOf hg with ⟨s, hs⟩
        simp [mapVisit, hs, ih ⟨f, hfgs, hNN⟩]

/-- Visiting the fields of a oneOf input object whose fields are all
nullable succeeds. -/
theorem mapVisit_oneOf_ok (config : TypeScriptPluginConfig) (schema : SchemaInfo)
    (scalars : ScalarsMap) (anc : List AncestorEntry) (parentName : Str)
    (hOneOf : isOneOfInputObjectType (schema.getType parentName) = true)
    (fields : List InputValueDefinitionNode)
    (hall : ∀ f ∈ fields, isNonNullType f.type = false) :
    ∃ ss, mapVisit (fun f => inputValueDefinitionLeave config schema scalars anc f parentName)
      fields = .ok ss := by
  induction fields with
  | nil => exact ⟨[], rfl⟩
  | cons g gs ih =>
    rcases inputValueDefinitionLeave_oneOf_ok config schema scalars anc g parentName
      hOneOf (hall g (by simp)) with ⟨s, hs⟩
    rcases ih (fun f hf => hall f (by simp [hf])) with ⟨ss, hss⟩
    exact ⟨s :: ss, by simp [mapVisit, hs, hss]⟩

/-- C1: for an input object type flagged oneOf, if some field is non-null at
the schema level the fold raises the descriptive schema-validation error and
the plugin produces no output unit; if no field is non-null, the pass does
not raise on that type. -/
theorem oneOf_nonNull_field_raises (config : TypeScriptPluginConfig) (schema : SchemaInfo)
    (scalars : ScalarsMap) (anc : List AncestorEntry) (T : InputObjectTypeDefinitionNode)
    (hOneOf : isOneOfInputObjectType (schema.getType T.name) = true) :
    ((∃ f ∈ T.fields, isNonNullType f.type = true) →
      foldInputObjectTypeDefinition config schema scalars anc T = .error oneOfErrorMessage ∧
      plugin config schema scalars [Definition.inputObjectType T] = .error oneOfErrorMessage) ∧
    ((∀ f ∈ T.fields, isNonNullType f.type = false) →
      ∃ s, foldInputObjectTypeDefinition config schema scalars anc T = .ok s) := by
  constructor
  · intro hex
    constructor
    · have h1 := mapVisit_oneOf_error config schema scalars
        (anc ++ [AncestorEntry.node Kind.inputObjectTypeDefinition,
          AncestorEntry.array (List.replicate T.fields.length Kind.inputValueDefinition)])
        T.name hOneOf T.fields hex
      simp [foldInputObjectTypeDefinition, h1]
    · have h1 := mapVisit_oneOf_error config schema scalars
        [AncestorEntry.node Kind.document,
         AncestorEntry.array [Kind.inputObjectTypeDefinition],
         AncestorEntry.node Kind.inputObjectTypeDefinition,
         AncestorEntry.array (List.replicate T.fields.length Kind.inputValueDefinition)]
        T.name hOneOf T.fields hex
      simp [plugin, visitDefinitions, mapVisit, foldDefinition, kindOfDefinition,
        foldInputObjectTypeDefinition, h1]
  · intro hall
    rcases mapVisit_oneOf_ok config schema scalars
      (anc ++ [AncestorEntry.node Kind.inputObjectTypeDefinition,
        AncestorEntry.array (List.replicate T.fields.length Kind.inputValueDefinition)])
      T.name hOneOf T.fields hall with ⟨ss, hss⟩
    exact ⟨inputObjectTypeDefinitionLeave config schema T.name T.description ss,
      by simp [foldInputObjectTypeDefinition, hss]⟩

/-- Witness for C1: the invalid oneOf object raises (also through the
plugin), the valid one folds. -/
theorem oneOf_nonNull_field_raises_witness :
    foldInputObjectTypeDefinition defaultCfg exOneOfSchemaBadGood defaultScalars [] exOneOfBad =
      .error oneOfErrorMessage ∧
    plugin defaultCfg exOneOfSchemaBadGood defaultScalars
      [Definition.inputObjectType exOneOfBad] = .error oneOfErrorMessage ∧
    ∃ s, foldInputObjectTypeDefinition defaultCfg exOneOfSchemaBadGood defaultScalars []
      exOneOfGood = .ok s := by
  have hBad := oneOf_nonNull_field_raises defaultCfg exOneOfSchemaBadGood defaultScalars []
    exOneOfBad (by decide)
  have hGood := oneOf_nonNull_field_raises defaultCfg exOneOfSchemaBadGood defaultScalars []
    exOneOfGood (by decide)
  have hex : ∃ f ∈ exOneOfBad.fields, isNonNullType f.type = true :=
    ⟨{ name := "a".toList, type := TypeNode.nonNull (TypeNode.named ("Int".toList)) },
      by decide, by decide⟩
  exact ⟨(hBad.1 hex).1, (hBad.1 hex).2, hGood.2 (by decide)⟩

/-- The folded name of a directive never satisfies the
`v.name.value === 'deprecated'` test. -/
theorem jsStringValueProp_ne_deprecated (s : Str) :
    (jsStringValueProp s == some ("deprecated".toList)) = false := rfl

/-- Searching with an always-false predicate finds nothing. -/
theorem find?_false {α : Type} (l : List α) : l.find? (fun _ => false) = none := by
  induction l <;> simp [List.find?, *]

/-- On folded nodes `getNodeComment` never appends a deprecation line: it is
the plain comment rendering of the description. -/
theorem getNodeComment_no_deprecated (description : Option Str)
    (directives : List DirectiveNode) :
    getNodeComment description directives = transformComment description 1 := by
  have hpred : (fun (v : DirectiveNode) =>
      jsStringValueProp v.name == some ("deprecated".toList)) = fun _ => false := by
    funext v
    rfl
  simp only [getNodeComment, hpred, find?_false]

/-- A non-empty list of non-empty strings joins to a non-empty string. -/
theorem joinStr_ne_nil (sep x : Str) (xs : List Str) (hx : x ≠ []) :
    joinStr sep (x :: xs) ≠ [] := by
  cases xs with
  | nil => exact fun h => hx h
  | cons y ys =>
    intro h
    have h' : (x ++ sep) ++ joinStr sep (y :: ys) = [] := h
    rcases List.append_eq_nil.mp h' with ⟨h1, _⟩
    rcases List.append_eq_nil.mp h1 with ⟨h2, _⟩
    exact hx h2

/-- One level of indentation is two leading spaces. -/
theorem indent_one (s : Str) : indent s = ' ' :: ' ' :: s := rfl

/-- The synthetic discriminant line is never empty. -/
theorem typenameLine_ne_nil (config : TypeScriptPluginConfig) (n : Str) :
    typenameLine config n ≠ [] := by
  simp [typenameLine, indent_one]

/-- A non-empty list is not `isEmpty`. -/
theorem isEmpty_false_of_ne_nil {l : Str} (h : l ≠ []) : l.isEmpty = false := by
  cases l with
  | nil => exact absurd rfl h
  | cons a as => rfl

/-- Counterexample for C3: for a type `Example` with a field `foo(id:
Int!)`, the synthesized declaration's body is the empty brace pair — the
argument list (here the argument `id`) appears nowhere in the output — and
under enum-only generation two argument-bearing fields produce the string
`"\n"`, not empty output. -/
theorem buildArgumentsBlock_claim_counterexample :
    buildArgumentsBlock defaultCfg ("Example".toList) none [exArgsField] =
      "export type ExamplefooArgs = \x7b\x7d;\n".toList ∧
    containsSubstr ("id".toList)
      (buildArgumentsBlock defaultCfg ("Example".toList) none [exArgsField]) = false ∧
    buildArgumentsBlock { defaultCfg with onlyEnums := true } ("T".toList) none
      [exArgsFieldF1, exArgsFieldF2] = "\n".toList ∧
    ("\n".toList : Str) ≠ [] := by
  exact ⟨by decide, by decide, by decide, by decide⟩

/-- C3 (amended): each argument-declaring field synthesizes an exported
declaration named `TypeName[_]fieldNameArgs` whose body is the empty brace
pair (the rendered argument list is never attached); no argument-declaring
field means empty output; enum-only generation makes each argument-declaring
field contribute an empty string, joined with newlines. -/
theorem buildArgumentsBlock_args_declarations (config : TypeScriptPluginConfig)
    (hE : config.onlyEnums = false) (hN : config.noExport = false)
    (nodeName : Str) (fields : List FieldDefinitionNode) :
    buildArgumentsBlock config nodeName none fields =
      joinStr "\n".toList
        ((fields.filter (fun f => !f.arguments.isEmpty)).map (fun field =>
          "export type ".toList ++ nodeName ++
          (if config.addUnderscoreToArgsType then "_".toList else []) ++
          field.name ++ "Args = \x7b\x7d;\n".toList)) ∧
    ((fields.filter (fun f => !f.arguments.isEmpty)) = [] →
      buildArgumentsBlock config nodeName none fields = []) ∧
    (∀ config2 : TypeScriptPluginConfig, config2.onlyEnums = true →
      buildArgumentsBlock config2 nodeName none fields =
        joinStr "\n".toList
          ((fields.filter (fun f => !f.arguments.isEmpty)).map (fun _ => ([] : Str)))) := by
  have h1 : buildArgumentsBlock config nodeName none fields =
      joinStr "\n".toList
        ((fields.filter (fun f => !f.arguments.isEmpty)).map (fun field =>
          "export type ".toList ++ nodeName ++
          (if config.addUnderscoreToArgsType then "_".toList else []) ++
          field.name ++ "Args = \x7b\x7d;\n".toList)) := by
    unfold buildArgumentsBlock
    dsimp only
    congr 1
    apply List.map_congr_left
    intro field _
    simp [hE, hN, DeclarationBlock.string, DeclarationBlock.body, convertName, convertKeep,
      transformComment]
  refine ⟨h1, ?_, ?_⟩
  · intro h
    rw [h1, h]
    rfl
  · intro config2 h2
    unfold buildArgumentsBlock
    dsimp only
    congr 1
    apply List.map_congr_left
    intro field _
    simp [h2]

/-- Witness for C3's amended theorem at the `Example`/`foo(id: Int!)`
instance and at a field list with no arguments. -/
theorem buildArgumentsBlock_args_declarations_witness :
    buildArgumentsBlock defaultCfg ("Obj".toList) none [exArgsFieldF1] =
      "export type Objf1Args = \x7b\x7d;\n".toList ∧
    buildArgumentsBlock defaultCfg ("Obj".toList) none
      [{ name := "plain".toList, type := TypeNode.named ("Int".toList) }] = [] := by
  have h1 := (buildArgumentsBlock_args_declarations defaultCfg rfl rfl ("Obj".toList)
    [exArgsFieldF1]).1
  have h2 := (buildArgumentsBlock_args_declarations defaultCfg rfl rfl ("Obj".toList)
    [{ name := "plain".toList, type := TypeNode.named ("Int".toList) }]).2.1
  exact ⟨by rw [h1]; decide, by rw [h2 (by decide)]⟩

/-- The oneOf variant shape a nullable, description-free field folds to
under the default configuration: the schema's field names in order, the
selected field with its folded type run through `clearOptional` and no
optional sign, every other field as `name?: never;`. -/
theorem inputValueDefinitionLeave_oneOf_arm (schema : SchemaInfo) (scalars : ScalarsMap)
    (anc : List AncestorEntry) (f : InputValueDefinitionNode) (parentName : Str)
    (hOneOf : isOneOfInputObjectType (schema.getType parentName) = true)
    (hNN : isNonNullType f.type = false) (hD : f.description = none) :
    inputValueDefinitionLeave defaultCfg schema scalars anc f parentName =
      .ok (indent ("\x7b ".toList ++
        joinStr " ".toList
          ((((schema.getType parentName).getD SchemaType.objectType).fieldKeys).map
            (fun fieldName =>
              if fieldName == f.name then
                f.name ++ ": ".toList ++
                  clearOptional (foldType defaultCfg schema scalars anc f.type) ++ ";".toList
              else fieldName ++ "?: never;".toList)) ++
        " \x7d".toList)) := by
  simp [inputValueDefinitionLeave, hOneOf, hNN, hD, getNodeComment_no_deprecated,
    transformComment, buildFieldDefinition, defaultCfg]

/-- Counterexample for C4: for the oneOf input object with fields
`\x7ba: Int, b: String\x7d`, the arm for `a` renders as
`\x7b a: InputMaybe<Scalars['Int']>; b?: never; \x7d` (the folded type keeps
the `InputMaybe` wrapper and the lines keep their trailing semicolons), not
as the claimed `\x7b a: Int; b?: never \x7d`, which occurs nowhere in it;
and the arm for `b` lists the fields in schema field order,
`\x7b a?: never; b: InputMaybe<Scalars['String']>; \x7d`, not with the
selected field first as the claimed `\x7b b: String; a?: never \x7d` would
have it (`\x7b b: ` occurs nowhere in that arm). -/
theorem oneOf_arm_rendering_counterexample :
    inputValueDefinitionLeave defaultCfg exOneOfPairSchema defaultScalars exPairAncestors
        exFieldAInt ("ExampleOneOf".toList) =
      .ok ("  \x7b a: InputMaybe<Scalars['Int']>; b?: never; \x7d".toList) ∧
    ("  \x7b a: InputMaybe<Scalars['Int']>; b?: never; \x7d".toList : Str) ≠
      "\x7b a: Int; b?: never \x7d".toList ∧
    containsSubstr ("\x7b a: Int; b?: never \x7d".toList)
      ("  \x7b a: InputMaybe<Scalars['Int']>; b?: never; \x7d".toList) = false ∧
    inputValueDefinitionLeave defaultCfg exOneOfPairSchema defaultScalars exPairAncestors
        exFieldBString ("ExampleOneOf".toList) =
      .ok ("  \x7b a?: never; b: InputMaybe<Scalars['String']>; \x7d".toList) ∧
    containsSubstr ("\x7b b: ".toList)
      ("  \x7b a?: never; b: InputMaybe<Scalars['String']>; \x7d".toList) = false := by
  exact ⟨rfl, by decide, by decide, rfl, by decide⟩

/-- C4 (amended): a oneOf input object (all fields nullable, as C1
enforces) renders as a union with exactly one arm per declared field in
declaration order; each arm lists all declared fields in the schema's field
order, with the arm's selected field `f` keeping its position, its optional
sign removed but its rendered type still wrapped (only a `Maybe<` prefix
would be stripped), and every other declared field rendered as
`name?: never;`. -/
theorem oneOf_union_arms (schema : SchemaInfo) (scalars : ScalarsMap)
    (anc : List AncestorEntry) (nodeName : Str) (desc : Option Str)
    (fields : List InputValueDefinitionNode)
    (hOneOf : schema.getType nodeName =
      some (SchemaType.inputObjectType true (fields.map (fun f => f.name))))
    (hOK : ∀ f ∈ fields, isNonNullType f.type = false ∧ f.description = none) :
    foldInputObjectTypeDefinition defaultCfg schema scalars anc
        { name := nodeName, description := desc, fields := fields } =
      .ok (DeclarationBlock.string
        { ignoreExport := false, exported := true, kind := "type".toList,
          name := nodeName, comment := transformComment desc 0,
          content := "\n".toList ++
            joinStr "\n  |".toList (fields.map (fun f =>
              indent ("\x7b ".toList ++
                joinStr " ".toList ((fields.map (fun g => g.name)).map (fun fieldName =>
                  if fieldName == f.name then
                    f.name ++ ": ".toList ++
                      clearOptional (foldType defaultCfg schema scalars
                        (anc ++ [AncestorEntry.node Kind.inputObjectTypeDefinition,
                          AncestorEntry.array
                            (List.replicate fields.length Kind.inputValueDefinition)])
                        f.type) ++ ";".toList
                  else fieldName ++ "?: never;".toList)) ++
                " \x7d".toList))) }) := by
  have hOneOfB : isOneOfInputObjectType (schema.getType nodeName) = true := by
    rw [hOneOf]
    rfl
  have hmap := mapVisit_ok
    (fun f => inputValueDefinitionLeave defaultCfg schema scalars
      (anc ++ [AncestorEntry.node Kind.inputObjectTypeDefinition,
        AncestorEntry.array (List.replicate fields.length Kind.inputValueDefinition)])
      f nodeName)
    (fun f =>
      indent ("\x7b ".toList ++
        joinStr " ".toList
          ((((schema.getType nodeName).getD SchemaType.objectType).fieldKeys).map
            (fun fieldName =>
              if fieldName == f.name then
                f.name ++ ": ".toList ++
                  clearOptional (foldType defaultCfg schema scalars
                    (anc ++ [AncestorEntry.node Kind.inputObjectTypeDefinition,
                      AncestorEntry.array
                        (List.replicate fields.length Kind.inputValueDefinition)])
                    f.type) ++ ";".toList
              else fieldName ++ "?: never;".toList)) ++
        " \x7d".toList))
    fields
    (fun f hf => inputValueDefinitionLeave_oneOf_arm schema scalars _ f nodeName hOneOfB
      (hOK f hf).1 (hOK f hf).2)
  have hE : defaultCfg.onlyEnums = false := rfl
  have hNoExp : defaultCfg.noExport = false := rfl
  simp [foldInputObjectTypeDefinition, hmap, inputObjectTypeDefinitionLeave, hE, hNoExp,
    hOneOf, isOneOfInputObjectType, SchemaType.fieldKeys, convertName_default]

/-- Witness for C4's amended theorem: the full declaration rendered for
`ExampleOneOf` with fields `a: Int`, `b: String`. -/
theorem oneOf_union_arms_witness :
    foldInputObjectTypeDefinition defaultCfg exOneOfPairSchema defaultScalars
        [AncestorEntry.node Kind.document, AncestorEntry.array [Kind.inputObjectTypeDefinition]]
        { name := "ExampleOneOf".toList, fields := [exFieldAInt, exFieldBString] } =
      .ok (("export type ExampleOneOf = \n" ++
            "  \x7b a: InputMaybe<Scalars['Int']>; b?: never; \x7d\n" ++
            "  |  \x7b a?: never; b: InputMaybe<Scalars['String']>; \x7d;\n").toList) := by
  have h := oneOf_union_arms exOneOfPairSchema defaultScalars
    [AncestorEntry.node Kind.document, AncestorEntry.array [Kind.inputObjectTypeDefinition]]
    ("ExampleOneOf".toList) none [exFieldAInt, exFieldBString] (by decide) (by decide)
  rw [h]
  exact congrArg Except.ok (by decide)

/-- C8: for an object type declaring supertype interfaces, the rendered
body is the interface identifiers joined with ` & `, followed — exactly when
the field list (synthetic discriminant included) is non-empty — by a single
` & ` combinator and the brace-wrapped field block; the combinator is
omitted exactly when the field list is empty. -/
theorem interface_merge_body (config : TypeScriptPluginConfig) (nodeName : Str)
    (desc : Option Str) (foldedFields : List Str) (interfaces : List Str)
    (hI : interfaces ≠ []) (hIne : ([] : Str) ∉ interfaces)
    (hF : ([] : Str) ∉ foldedFields) :
    (getObjectTypeDeclarationBlock config nodeName desc foldedFields interfaces).body =
      (if allFieldsOf config nodeName foldedFields = [] then
        joinStr " & ".toList interfaces
      else
        joinStr " & ".toList interfaces ++ " & ".toList ++ "\x7b\n".toList ++
        joinStr "\n".toList (allFieldsOf config nodeName foldedFields) ++ "\n\x7d".toList) := by
  have hmap : interfaces.map (fun i => convertName i) = interfaces := by
    simp [convertName_default]
  obtain ⟨i0, is, rfl⟩ : ∃ i0 is, interfaces = i0 :: is := by
    cases interfaces with
    | nil => exact absurd rfl hI
    | cons a b => exact ⟨a, b, rfl⟩
  have hi0 : i0 ≠ [] := fun h => hIne (h ▸ List.mem_cons_self i0 is)
  cases hA : allFieldsOf config nodeName foldedFields with
  | nil =>
    simp [getObjectTypeDeclarationBlock, appendInterfacesAndFieldsToBlock,
      DeclarationBlock.body, mergeInterfaces, hA, hmap, joinStr]
    intro hj
    exact absurd hj (joinStr_ne_nil (" & ".toList) i0 is hi0)
  | cons a as =>
    have ha : a ≠ [] := by
      have hmem : a ∈ allFieldsOf config nodeName foldedFields := by
        rw [hA]
        exact List.mem_cons_self a as
      rcases (by simpa [allFieldsOf] using hmem :
          (config.skipTypename = false ∧ a = typenameLine config nodeName) ∨
            a ∈ foldedFields) with ⟨_, htn⟩ | hm
      · exact htn ▸ typenameLine_ne_nil config nodeName
      · exact fun h => hF (h ▸ hm)
    simp [getObjectTypeDeclarationBlock, appendInterfacesAndFieldsToBlock,
      DeclarationBlock.body, mergeInterfaces, hA, hmap]
    exact joinStr_ne_nil ("\n".toList) a as ha

/-- Witness for C8: an object `X` implementing `IfaceA` and `IfaceB` with no
own fields renders its body as the two identifiers with a single combinator
before the discriminant block. -/
theorem interface_merge_body_witness :
    (getObjectTypeDeclarationBlock defaultCfg ("X".toList) none []
        ["IfaceA".toList, "IfaceB".toList]).body =
      "IfaceA & IfaceB & \x7b\n  __typename?: 'X';\n\x7d".toList := by
  have h := interface_merge_body defaultCfg ("X".toList) none []
    ["IfaceA".toList, "IfaceB".toList] (by decide) (by decide) (by decide)
  rw [h]
  decide

end GqlTs
